import Mathlib

/-!
Verification of the benchmark scheduler and relative-speed comparison engine
of a command-line benchmarking harness, together with its Asciidoc table
exporter.

The development shallowly embeds the Rust sources:

* `src/benchmark/scheduler.rs` — the `Scheduler` driving calibration, the
  per-command benchmark loop with incremental exports, the relative-speed
  report and the final export.  Timing values (`f64` in Rust) are embedded
  as exact rationals `ℚ`; the effectful collaborators (executor, benchmark
  runner, export manager) are embedded as an explicit environment of
  `Except`-valued functions, and the export calls the scheduler makes are
  recorded in an explicit trace.
* `src/export/asciidoc.rs` — the `AsciidocExporter` markup functions,
  embedded as pure string functions.

The relative-speed comparator (`relative_speed::compute_with_check`) is
called by the scheduler but its module is not among the given sources; it is
modelled from the specification's description of the algorithm (reference =
first result of minimal mean, `None` on a zero fastest mean, ratio of means,
relative-error combination rule for the propagated uncertainty, no
uncertainty on the reference entry).  The propagated uncertainty is a real
number (`Real.sqrt`); every other field stays rational.
-/

namespace Hyperfine

/-- Sort orders used by the scheduler (`options.rs` is not among the given
sources; the two variants the scheduler matches on are `MeanTime` and
`Command`). -/
inductive SortOrder
  | MeanTime
  | Command
deriving DecidableEq

/-- Modelled from the spec: the "output-style toggle"; the scheduler only
ever tests whether the style is `Disabled`. -/
inductive OutputStyleOption
  | Enabled
  | Disabled
deriving DecidableEq

/-- Executor selection, as matched on by `Scheduler::run_benchmarks`. -/
inductive ExecutorKind
  | Raw
  | Mock (shell : String)
  | Shell (shell : String)
deriving DecidableEq

/-- Modelled from the spec (§3) and the construction sites in
`src/export/asciidoc.rs`: the reduced, persisted outcome for one command.
`f64` timing fields are embedded as `ℚ`; `stddev` is optional (absent for a
single-sample result); `parameters` (a `BTreeMap`) is embedded as an
association list. -/
structure BenchmarkResult where
  command : String
  command_with_unused_parameters : String
  mean : ℚ
  stddev : Option ℚ
  median : ℚ
  user : ℚ
  system : ℚ
  min : ℚ
  max : ℚ
  times : Option (List ℚ)
  exit_codes : List (Option Int)
  parameters : List (String × String)
deriving DecidableEq, Inhabited

/-- The scheduler's options, restricted to the fields
`Scheduler::run_benchmarks`, `print_relative_speed_comparison` and
`final_export` read. -/
structure Options where
  executor_kind : ExecutorKind
  output_style : OutputStyleOption
  sort_order_exports : SortOrder
  sort_order_speed_comparison : SortOrder

/-- Modelled from the spec (§3): a `BenchmarkResult` annotated with its speed
relative to the fastest result.  The propagated uncertainty
`relative_speed_stddev` is a real number (it involves a square root). -/
structure AnnotatedResult where
  result : BenchmarkResult
  relative_speed : ℚ
  relative_speed_stddev : Option ℝ
  is_fastest : Bool

instance : Inhabited AnnotatedResult :=
  ⟨⟨default, 0, none, false⟩⟩

/-! ## The Asciidoc exporter (`src/export/asciidoc.rs`) -/

/-- Column alignment of the markup table layer (`markup.rs` is not among the
given sources; `AsciidocExporter` matches exactly the two variants `Left`
and `Right`). -/
inductive Alignment
  | Left
  | Right
deriving DecidableEq

/-- Rust's `[&str]::join(sep)`: the elements separated by `sep`, empty for
the empty slice. -/
def rust_join (sep : String) : List String → String
  | [] => ""
  | [x] => x
  | x :: y :: xs => x ++ sep ++ rust_join sep (y :: xs)

namespace AsciidocExporter

/-- The cell-alignment marker of `AsciidocExporter::table_header`'s inner
closure: `<` for `Left`, `>` for `Right`. -/
def alignChar : Alignment → String
  | Alignment.Left => "<"
  | Alignment.Right => ">"

/-- `AsciidocExporter::table_header` (asciidoc.rs line 8). -/
def table_header (cell_aligmnents : List Alignment) : String :=
  "[cols=\"" ++ rust_join "," (cell_aligmnents.map alignChar) ++ "\"]\n|==="

/-- `AsciidocExporter::table_footer` (asciidoc.rs line 22). -/
def table_footer (_cell_aligmnents : List Alignment) : String :=
  "|===\n"

/-- `AsciidocExporter::table_row` (asciidoc.rs line 26). -/
def table_row (cells : List String) : String :=
  "\n| " ++ rust_join " \n| " cells ++ " \n"

/-- `AsciidocExporter::table_divider` (asciidoc.rs line 30). -/
def table_divider (_cell_aligmnents : List Alignment) : String :=
  ""

/-- `AsciidocExporter::command` (asciidoc.rs line 34). -/
def command (cmd : String) : String :=
  "`" ++ cmd ++ "`"

end AsciidocExporter

/-! `rust_join` agrees with `String.intercalate`, so the theorems below can
state the joined shape through the standard library's joining function. -/

/-- The separator-prefixed tail of a join: `joinSuffix sep [a, b] = sep ++ a
++ sep ++ b`. -/
def joinSuffix (sep : String) : List String → String
  | [] => ""
  | a :: as => sep ++ (a ++ joinSuffix sep as)

theorem intercalate_go_spec (s : String) :
    ∀ (as : List String) (acc : String),
      String.intercalate.go acc s as = acc ++ joinSuffix s as := by
  intro as
  induction as with
  | nil => intro acc; simp [String.intercalate.go, joinSuffix]
  | cons a as ih =>
      intro acc
      simp only [String.intercalate.go, joinSuffix, ih, String.append_assoc]

theorem rust_join_cons (s : String) (a : String) (as : List String) :
    rust_join s (a :: as) = a ++ joinSuffix s as := by
  induction as generalizing a with
  | nil => simp [rust_join, joinSuffix]
  | cons b bs ih =>
      simp only [rust_join, joinSuffix, ih, String.append_assoc]

theorem rust_join_eq_intercalate (s : String) (l : List String) :
    rust_join s l = String.intercalate s l := by
  cases l with
  | nil => rfl
  | cons a as =>
      simp only [String.intercalate, intercalate_go_spec, rust_join_cons]

/-! ## The relative-speed comparator

Modelled from the spec: `relative_speed::compute_with_check` is called by
`Scheduler::print_relative_speed_comparison` (scheduler.rs line 68) but its
module is not among the given sources.  The spec (§4.3) describes the
algorithm: the reference is the result with minimum `mean`, ties broken
towards the first in command order; if the reference's mean is exactly zero
the computation returns `None`; otherwise every result is annotated with
`relative_speed = mean / fastest.mean`, with the propagated uncertainty
`relative_speed * sqrt((stddev/mean)^2 + (stddev_fastest/mean_fastest)^2)`
when both standard deviations are present (absent on the reference entry
itself), and the output is ordered by command order or by ascending mean
time, per the requested sort order. -/

/-- Modelled from the spec (§4.3 step 1): the result with the minimum
`mean`; on an exact tie the first in command order wins. `none` only for an
empty input. -/
def fastest_of : List BenchmarkResult → Option BenchmarkResult
  | [] => none
  | r :: rest =>
    match fastest_of rest with
    | none => some r
    | some f => if f.mean < r.mean then some f else some r

/-- The position of the reference entry: the index of the first result whose
mean is at or below the fastest mean (given the fastest mean, this is the
first minimal entry). -/
def first_min_idx (fm : ℚ) : List BenchmarkResult → Nat
  | [] => 0
  | r :: rest => if r.mean ≤ fm then 0 else first_min_idx fm rest + 1

/-- Modelled from the spec (§4.3 step 4): the relative-error combination
rule for the ratio of two noisy quantities, defined exactly when both
standard deviations are present. -/
noncomputable def propagated_stddev (fastest r : BenchmarkResult) : Option ℝ :=
  match r.stddev, fastest.stddev with
  | some sr, some sf =>
    some (((r.mean / fastest.mean : ℚ) : ℝ) *
      Real.sqrt (((sr : ℝ) / (r.mean : ℝ)) ^ 2 +
        ((sf : ℝ) / (fastest.mean : ℝ)) ^ 2))
  | _, _ => none

/-- Modelled from the spec (§4.3 steps 3-5): one annotated entry.  `i` is
the entry's position in command order and `fIdx` the reference's position;
the reference entry carries no propagated uncertainty. -/
noncomputable def mkAnnotated (fastest : BenchmarkResult) (fIdx i : Nat)
    (r : BenchmarkResult) : AnnotatedResult :=
  { result := r
    relative_speed := r.mean / fastest.mean
    relative_speed_stddev :=
      if i = fIdx then none else propagated_stddev fastest r
    is_fastest := i == fIdx }

/-- Annotate every result, threading the position in command order. -/
noncomputable def annotate (fastest : BenchmarkResult) (fIdx : Nat) :
    Nat → List BenchmarkResult → List AnnotatedResult
  | _, [] => []
  | i, r :: rest => mkAnnotated fastest fIdx i r :: annotate fastest fIdx (i + 1) rest

/-- Modelled from the spec (§4.3): the output order — command order as
given, or ascending mean time. -/
noncomputable def sortAnnotated : SortOrder → List AnnotatedResult → List AnnotatedResult
  | SortOrder.Command, l => l
  | SortOrder.MeanTime, l => l.insertionSort (fun a b => a.result.mean ≤ b.result.mean)

/-- Modelled from the spec (§4.3): `relative_speed::compute_with_check`.
Returns `none` when the fastest mean is exactly zero (and for an empty
input, on which the comparison is likewise undefined). -/
noncomputable def compute_with_check (results : List BenchmarkResult)
    (so : SortOrder) : Option (List AnnotatedResult) :=
  match fastest_of results with
  | none => none
  | some fastest =>
    if fastest.mean = 0 then none
    else
      some (sortAnnotated so
        (annotate fastest (first_min_idx fastest.mean results) 0 results))

/-! ## The scheduler (`src/benchmark/scheduler.rs`) -/

/-- One call to `ExportManager::write_results` as the scheduler makes it:
the result list passed, the sort order, and the `is_partial` flag. -/
structure ExportCall where
  results : List BenchmarkResult
  sort_order : SortOrder
  is_partial : Bool
deriving DecidableEq

/-- The effectful collaborators of the scheduler, embedded as an
environment: `calibrate` is the selected executor's calibration,
`run number cmd` is `Benchmark::new(number, cmd, options, executor).run()`,
and `write` is the outcome of `ExportManager::write_results`. -/
structure Env (Cmd E : Type) where
  calibrate : ExecutorKind → Except E Unit
  run : Nat → Cmd → Except E BenchmarkResult
  write : List BenchmarkResult → SortOrder → Bool → Except E Unit

/-- The scheduler's mutable state: the accumulated result list, plus the
trace of export calls made so far (the observable effect on the export
collaborator). -/
structure SchedulerState where
  results : List BenchmarkResult
  trace : List ExportCall
deriving DecidableEq

/-- The `for (number, cmd) in commands.iter().enumerate()` loop of
`Scheduler::run_benchmarks` (scheduler.rs lines 43-54): run the benchmark,
push its result, export the accumulated list with ` is_partial` true, and
stop at the first error. -/
def run_benchmarks_loop {Cmd E : Type} (env : Env Cmd E) (opts : Options) :
    List Cmd → Nat → SchedulerState → SchedulerState × Except E Unit
  | [], _, st => (st, Except.ok ())
  | c :: rest, number, st =>
    match env.run number c with
    | Except.error e => (st, Except.error e)
    | Except.ok r =>
      let results := st.results ++ [r]
      let st' : SchedulerState :=
        ⟨results, st.trace ++ [⟨results, opts.sort_order_exports, true⟩]⟩
      match env.write results opts.sort_order_exports true with
      | Except.error e => (st', Except.error e)
      | Except.ok _ => run_benchmarks_loop env opts rest (number + 1) st'

/-- `Scheduler::run_benchmarks` (scheduler.rs lines 34-57): select the
executor, calibrate it (aborting on failure), then run every command in
declared order. The scheduler starts from an empty result list. -/
def run_benchmarks {Cmd E : Type} (env : Env Cmd E) (opts : Options)
    (cmds : List Cmd) : SchedulerState × Except E Unit :=
  match env.calibrate opts.executor_kind with
  | Except.error e => (⟨[], []⟩, Except.error e)
  | Except.ok _ => run_benchmarks_loop env opts cmds 0 ⟨[], []⟩

/-- `Scheduler::final_export` (scheduler.rs lines 129-132): one more export
call, with ` is_partial` false. The first component is the list of export
calls this method makes. -/
def final_export {Cmd E : Type} (env : Env Cmd E) (opts : Options)
    (st : SchedulerState) : List ExportCall × Except E Unit :=
  ([⟨st.results, opts.sort_order_exports, false⟩],
    env.write st.results opts.sort_order_exports false)

/-- The console output of `Scheduler::print_relative_speed_comparison`,
abstracted: nothing, the "Summary" block (fastest entry and the others), the
"Relative speed comparison" table, the diagnostic note of the zero-mean
case, or the panic of the `unwrap` on line 76. -/
inductive CompOutput
  | noOutput
  | summaryBlock (fastest : AnnotatedResult) (others : List AnnotatedResult)
  | speedTable (items : List AnnotatedResult)
  | diagnosticNote
  | panicked
deriving Inhabited

/-- `Scheduler::print_relative_speed_comparison` (scheduler.rs lines
59-127): early return when output is disabled or fewer than two results
exist; otherwise the summary or table from `compute_with_check`, or the
diagnostic note when it returns `None`. -/
noncomputable def print_relative_speed_comparison (opts : Options)
    (results : List BenchmarkResult) : CompOutput :=
  if opts.output_style = OutputStyleOption.Disabled then CompOutput.noOutput
  else if results.length < 2 then CompOutput.noOutput
  else
    match compute_with_check results opts.sort_order_speed_comparison with
    | some annotated =>
      match opts.sort_order_speed_comparison with
      | SortOrder.MeanTime =>
        match annotated.find? (fun r => r.is_fastest) with
        | some fastest =>
          CompOutput.summaryBlock fastest (annotated.filter (fun r => !r.is_fastest))
        | none => CompOutput.panicked
      | SortOrder.Command => CompOutput.speedTable annotated
    | none => CompOutput.diagnosticNote

/-! ## Concrete data for witnesses

`exA1`/`exA2` are the two benchmark results of the integration test
`test_asciidoc_format_s` (asciidoc.rs lines 96-135): means `1.0` and
`11.0`, standard deviations `2.0` and `12.0`. -/

/-- First result of `test_asciidoc_format_s`. -/
def exA1 : BenchmarkResult :=
  { command := "FOO=1 BAR=2 command | 1"
    command_with_unused_parameters := "FOO=1 BAR=2 command | 1"
    mean := 1
    stddev := some 2
    median := 1
    user := 3
    system := 4
    min := 5
    max := 6
    times := some [7, 8, 9]
    exit_codes := [some 0, some 0, some 0]
    parameters := [("bar", "2"), ("foo", "1")] }

/-- Second result of `test_asciidoc_format_s`. -/
def exA2 : BenchmarkResult :=
  { command := "FOO=1 BAR=7 command | 2"
    command_with_unused_parameters := "FOO=1 BAR=7 command | 2"
    mean := 11
    stddev := some 12
    median := 11
    user := 13
    system := 14
    min := 15
    max := 16
    times := some [17, 18, 19]
    exit_codes := [some 0, some 0, some 0]
    parameters := [("bar", "7"), ("foo", "1")] }

/-- The result pair of `test_asciidoc_format_s`, in command order. -/
def exampleA : List BenchmarkResult := [exA1, exA2]

/-- A degenerate result whose mean is exactly zero. -/
def exZero : BenchmarkResult :=
  { exA1 with
    command := "true"
    command_with_unused_parameters := "true"
    mean := 0
    stddev := none }

/-- A result set whose fastest mean is exactly zero. -/
def exampleZero : List BenchmarkResult := [exZero, exA2]

/-- The second example result as a single-sample measurement: no standard
deviation. -/
def exB2 : BenchmarkResult := { exA2 with stddev := none }

/-- A result pair whose slower entry is a single-sample result. -/
def exampleB : List BenchmarkResult := [exA1, exB2]

/-- Options with comparison output enabled, both orderings by command. -/
def optsEnabled : Options :=
  { executor_kind := ExecutorKind.Shell "sh"
    output_style := OutputStyleOption.Enabled
    sort_order_exports := SortOrder.Command
    sort_order_speed_comparison := SortOrder.Command }

/-- Options with all console output disabled. -/
def optsDisabled : Options :=
  { optsEnabled with output_style := OutputStyleOption.Disabled }

/-- An environment whose executor cannot spawn anything: calibration fails. -/
def failCalibrationEnv : Env Unit String :=
  { calibrate := fun _ => Except.error "shell not found"
    run := fun _ _ => Except.error "unreachable"
    write := fun _ _ _ => Except.ok () }

/-- An environment whose runs deterministically produce the results of
`exampleA` (a mock executor setting), with exports always succeeding. -/
def mockEnv : Env String String :=
  { calibrate := fun _ => Except.ok ()
    run := fun number _ => Except.ok (exampleA.getD number default)
    write := fun _ _ _ => Except.ok () }

/-! ## Helper lemmas on the comparator -/

theorem fastest_of_cons_isSome (r : BenchmarkResult) (rest : List BenchmarkResult) :
    ∃ f, fastest_of (r :: rest) = some f := by
  simp only [fastest_of]
  cases fastest_of rest with
  | none => exact ⟨r, rfl⟩
  | some g =>
      by_cases hlt : g.mean < r.mean
      · exact ⟨g, by simp [hlt]⟩
      · exact ⟨r, by simp [hlt]⟩

theorem fastest_of_eq_none {l : List BenchmarkResult} :
    fastest_of l = none ↔ l = [] := by
  cases l with
  | nil => simp [fastest_of]
  | cons r rest =>
      obtain ⟨f, hf⟩ := fastest_of_cons_isSome r rest
      simp [hf]

theorem fastest_of_mem : ∀ {l : List BenchmarkResult} {f : BenchmarkResult},
    fastest_of l = some f → f ∈ l := by
  intro l
  induction l with
  | nil => intro f h; simp [fastest_of] at h
  | cons r rest ih =>
      intro f h
      simp only [fastest_of] at h
      cases hrest : fastest_of rest with
      | none => rw [hrest] at h; simp at h; simp [h]
      | some g =>
          rw [hrest] at h
          by_cases hlt : g.mean < r.mean
          · simp [hlt] at h; subst h; exact List.mem_cons_of_mem _ (ih hrest)
          · simp [hlt] at h; simp [h]

theorem fastest_of_le : ∀ {l : List BenchmarkResult} {f : BenchmarkResult},
    fastest_of l = some f → ∀ r ∈ l, f.mean ≤ r.mean := by
  intro l
  induction l with
  | nil => intro f h; simp [fastest_of] at h
  | cons r rest ih =>
      intro f h s hs
      simp only [fastest_of] at h
      rcases List.mem_cons.mp hs with hs | hs
      · subst hs
        cases hrest : fastest_of rest with
        | none => rw [hrest] at h; simp at h; simp [h]
        | some g =>
            rw [hrest] at h
            by_cases hlt : g.mean < s.mean
            · simp [hlt] at h; subst h; exact le_of_lt hlt
            · simp [hlt] at h; simp [h]
      · cases hrest : fastest_of rest with
        | none =>
            rw [fastest_of_eq_none.mp hrest] at hs
            simp at hs
        | some g =>
            have hg := ih hrest s hs
            rw [hrest] at h
            by_cases hlt : g.mean < r.mean
            · simp [hlt] at h; subst h; exact hg
            · simp [hlt] at h; subst h
              exact le_trans (not_lt.mp hlt) hg

theorem first_min_idx_lt (fm : ℚ) :
    ∀ {l : List BenchmarkResult}, (∃ r ∈ l, r.mean ≤ fm) →
      first_min_idx fm l < l.length := by
  intro l
  induction l with
  | nil => rintro ⟨r, hr, -⟩; simp at hr
  | cons r rest ih =>
      rintro ⟨s, hs, hsle⟩
      simp only [first_min_idx]
      by_cases h : r.mean ≤ fm
      · simp [h]
      · simp only [h, if_false, List.length_cons]
        rcases List.mem_cons.mp hs with rfl | hs'
        · exact absurd hsle h
        · exact Nat.succ_lt_succ (ih ⟨s, hs', hsle⟩)

theorem first_min_idx_mean (fm : ℚ) :
    ∀ {l : List BenchmarkResult}, first_min_idx fm l < l.length →
      (l.getD (first_min_idx fm l) default).mean ≤ fm := by
  intro l
  induction l with
  | nil => intro h; simp at h
  | cons r rest ih =>
      intro h
      simp only [first_min_idx] at h ⊢
      by_cases hr : r.mean ≤ fm
      · simpa [hr] using hr
      · simp only [hr, if_false] at h ⊢
        simp only [List.length_cons, Nat.succ_lt_succ_iff] at h
        simpa using ih h

theorem mem_annotate {fastest : BenchmarkResult} {fIdx : Nat} :
    ∀ {l : List BenchmarkResult} {i : Nat} {a : AnnotatedResult},
      a ∈ annotate fastest fIdx i l ↔
        ∃ j < l.length, a = mkAnnotated fastest fIdx (i + j) (l.getD j default) := by
  intro l
  induction l with
  | nil => intro i a; simp [annotate]
  | cons r rest ih =>
      intro i a
      simp only [annotate, List.mem_cons, ih]
      constructor
      · rintro (rfl | ⟨j, hj, rfl⟩)
        · exact ⟨0, by simp, by simp⟩
        · refine ⟨j + 1, by simpa using Nat.succ_lt_succ hj, ?_⟩
          have hidx : i + (j + 1) = i + 1 + j := by omega
          rw [List.getD_cons_succ, hidx]
      · rintro ⟨j, hj, rfl⟩
        cases j with
        | zero => left; simp
        | succ j =>
            right
            refine ⟨j, by simpa using Nat.lt_of_succ_lt_succ hj, ?_⟩
            have hidx : i + (j + 1) = i + 1 + j := by omega
            rw [List.getD_cons_succ, hidx]

theorem annotate_countP (fastest : BenchmarkResult) (fIdx : Nat) :
    ∀ (l : List BenchmarkResult) (i : Nat),
      (annotate fastest fIdx i l).countP (fun a => a.is_fastest) =
        if i ≤ fIdx ∧ fIdx < i + l.length then 1 else 0 := by
  intro l
  induction l with
  | nil =>
      intro i
      simp only [annotate, List.countP_nil, List.length_nil, add_zero]
      rw [if_neg (by omega)]
  | cons r rest ih =>
      intro i
      simp only [annotate, List.countP_cons, ih, mkAnnotated, beq_iff_eq,
        List.length_cons]
      split_ifs <;> omega

theorem propagated_stddev_none_left {fastest r : BenchmarkResult}
    (h : r.stddev = none) : propagated_stddev fastest r = none := by
  unfold propagated_stddev
  rw [h]

theorem propagated_stddev_some {fastest r : BenchmarkResult} {sr sf : ℚ}
    (hr : r.stddev = some sr) (hf : fastest.stddev = some sf) :
    propagated_stddev fastest r =
      some (((r.mean / fastest.mean : ℚ) : ℝ) *
        Real.sqrt (((sr : ℝ) / (r.mean : ℝ)) ^ 2 +
          ((sf : ℝ) / (fastest.mean : ℝ)) ^ 2)) := by
  unfold propagated_stddev
  rw [hr, hf]

theorem sortAnnotated_perm (so : SortOrder) (l : List AnnotatedResult) :
    (sortAnnotated so l).Perm l := by
  cases so with
  | Command => exact List.Perm.refl l
  | MeanTime => exact List.perm_insertionSort _ l

theorem compute_with_check_eq_some {results : List BenchmarkResult}
    {f : BenchmarkResult} (hf : fastest_of results = some f)
    (hne : f.mean ≠ 0) (so : SortOrder) :
    compute_with_check results so =
      some (sortAnnotated so
        (annotate f (first_min_idx f.mean results) 0 results)) := by
  simp only [compute_with_check, hf, hne, if_false]

/-! ## Helper lemmas on the scheduler -/

/-- The incremental-export trace shape: call `i` (zero-based) carries the
first `i + 1` results and the partial flag. -/
def partialTrace (opts : Options) (results : List BenchmarkResult) : List ExportCall :=
  (List.range results.length).map
    (fun i => ⟨results.take (i + 1), opts.sort_order_exports, true⟩)

theorem partialTrace_snoc (opts : Options) (results : List BenchmarkResult)
    (r : BenchmarkResult) :
    partialTrace opts (results ++ [r]) =
      partialTrace opts results ++
        [⟨results ++ [r], opts.sort_order_exports, true⟩] := by
  unfold partialTrace
  rw [List.length_append, List.length_singleton, List.range_succ, List.map_append]
  congr 1
  · refine List.map_congr_left ?_
    intro i hi
    rw [List.mem_range] at hi
    rw [List.take_append_of_le_length (by omega)]
  · simp [List.take_of_length_le]

/-- Invariant of the benchmark loop (scheduler.rs lines 43-54): starting
from a state whose trace is the partial trace of its results, and whose
`number` counter equals its result count, the loop (a) only appends to the
result list, (b) keeps the trace equal to the partial trace of the results,
and (c) fills position `i` of the result list with the successful outcome of
running command `i`. -/
theorem run_benchmarks_loop_spec {Cmd E : Type} (env : Env Cmd E) (opts : Options) :
    ∀ (cmds : List Cmd) (res0 : List BenchmarkResult) (tr0 : List ExportCall)
      (st : SchedulerState) (out : Except E Unit),
      run_benchmarks_loop env opts cmds res0.length ⟨res0, tr0⟩ = (st, out) →
      (∃ new, st.results = res0 ++ new) ∧
      (tr0 = partialTrace opts res0 → st.trace = partialTrace opts st.results) ∧
      (∀ i c, res0.length ≤ i → i < st.results.length →
        cmds.get? (i - res0.length) = some c →
        env.run i c = Except.ok (st.results.getD i default)) := by
  intro cmds
  induction cmds with
  | nil =>
      intro res0 tr0 st out h
      simp only [run_benchmarks_loop] at h
      cases h
      exact ⟨⟨[], by simp⟩, fun ht => ht,
        fun i c' h1 h2 hc => absurd h2 (by simp; omega)⟩
  | cons c rest ih =>
      intro res0 tr0 st out h
      simp only [run_benchmarks_loop] at h
      split at h
      · -- the benchmark run failed
        rename_i e hrun
        cases h
        exact ⟨⟨[], by simp⟩, fun ht => ht,
          fun i c' h1 h2 hc => absurd h2 (by simp; omega)⟩
      · rename_i r hrun
        split at h
        · -- the export call failed
          rename_i e hwrite
          cases h
          refine ⟨⟨[r], rfl⟩, ?_, ?_⟩
          · intro ht
            rw [ht, partialTrace_snoc]
          · intro i c' h1 h2 hc
            simp only [List.length_append, List.length_singleton] at h2
            have hi : i = res0.length := by omega
            subst hi
            rw [Nat.sub_self, List.get?_cons_zero] at hc
            cases hc
            show env.run res0.length c = _
            rw [List.getD_append_right res0 [r] default res0.length (le_refl _),
              Nat.sub_self, List.getD_cons_zero]
            exact hrun
        · -- the export call succeeded: recurse
          rename_i u hwrite
          have hlen : res0.length + 1 = (res0 ++ [r]).length := by simp
          rw [hlen] at h
          obtain ⟨⟨new, hnew⟩, htr, hrunsp⟩ := ih (res0 ++ [r]) _ st out h
          refine ⟨⟨r :: new,
            by rw [hnew, List.append_assoc, List.singleton_append]⟩, ?_, ?_⟩
          · intro ht
            exact htr (by rw [ht, partialTrace_snoc])
          · intro i c' h1 h2 hc
            by_cases hi : i = res0.length
            · subst hi
              rw [Nat.sub_self, List.get?_cons_zero] at hc
              cases hc
              show env.run res0.length c = _
              rw [hnew, List.getD_append (res0 ++ [r]) new default res0.length
                  (by simp),
                List.getD_append_right res0 [r] default res0.length (le_refl _),
                Nat.sub_self, List.getD_cons_zero]
              exact hrun
            · have h1' : (res0 ++ [r]).length ≤ i := by
                simp only [List.length_append, List.length_singleton]
                omega
              have hc' : rest.get? (i - (res0 ++ [r]).length) = some c' := by
                have hsub : i - res0.length = (i - (res0 ++ [r]).length) + 1 := by
                  simp only [List.length_append, List.length_singleton]
                  omega
                rw [hsub, List.get?_cons_succ] at hc
                exact hc
              exact hrunsp i c' h1' h2 hc'

/-- `run_benchmarks` from the scheduler's initial state: the export trace is
exactly the partial trace of the accumulated results, and result `i` is the
successful outcome of running command `i`. -/
theorem run_benchmarks_spec {Cmd E : Type} (env : Env Cmd E) (opts : Options)
    (cmds : List Cmd) :
    (run_benchmarks env opts cmds).1.trace =
      partialTrace opts (run_benchmarks env opts cmds).1.results ∧
    ∀ i c, i < (run_benchmarks env opts cmds).1.results.length →
      cmds.get? i = some c →
      env.run i c =
        Except.ok ((run_benchmarks env opts cmds).1.results.getD i default) := by
  unfold run_benchmarks
  cases hcal : env.calibrate opts.executor_kind with
  | error e =>
      refine ⟨by simp [partialTrace], fun i c h1 h2 => by simp at h1⟩
  | ok u =>
      have hq : run_benchmarks_loop env opts cmds ([] : List BenchmarkResult).length
          ⟨[], []⟩ =
          ((run_benchmarks_loop env opts cmds 0 ⟨[], []⟩).1,
            (run_benchmarks_loop env opts cmds 0 ⟨[], []⟩).2) := by
        simp
      obtain ⟨⟨new, hnew⟩, htr, hruns⟩ :=
        run_benchmarks_loop_spec env opts cmds [] [] _ _ hq
      refine ⟨htr (by simp [partialTrace]), ?_⟩
      intro i c h1 h2
      exact hruns i c (Nat.zero_le i) h1 (by simpa using h2)

/-! ## Claim theorems -/

/-- C9: `AsciidocExporter::table_row` is the pure function sending cells to
the string of a newline, a pipe-space prefix, the cells joined by the
separator of a space, a newline and a pipe-space, and a trailing space and
newline; in particular `["a", "b", "c"]` yields the row of the unit test
`test_asciidoc_exporter_table_data`. -/
theorem asciidoc_table_row_spec :
    (∀ cells, AsciidocExporter.table_row cells =
      "\n| " ++ String.intercalate " \n| " cells ++ " \n") ∧
    AsciidocExporter.table_row ["a", "b", "c"] = "\n| a \n| b \n| c \n" := by
  constructor
  · intro cells
    rw [AsciidocExporter.table_row, rust_join_eq_intercalate]
  · rfl

/-- C10: `AsciidocExporter::table_header` maps each alignment in order to
`<` (Left) or `>` (Right), joins them with commas inside the quoted `cols`
attribute, and appends the table delimiter; `table_footer` is constantly
the closing delimiter and `table_divider` constantly the empty string. -/
theorem asciidoc_table_header_footer_divider_spec :
    (∀ aligns, AsciidocExporter.table_header aligns =
      "[cols=\"" ++
        String.intercalate "," (aligns.map AsciidocExporter.alignChar) ++
        "\"]\n|===") ∧
    AsciidocExporter.table_header
      [Alignment.Left, Alignment.Right, Alignment.Right, Alignment.Right,
        Alignment.Right] = "[cols=\"<,>,>,>,>\"]\n|===" ∧
    AsciidocExporter.alignChar Alignment.Left = "<" ∧
    AsciidocExporter.alignChar Alignment.Right = ">" ∧
    (∀ aligns, AsciidocExporter.table_footer aligns = "|===\n") ∧
    (∀ aligns, AsciidocExporter.table_divider aligns = "") := by
  refine ⟨?_, rfl, rfl, rfl, fun _ => rfl, fun _ => rfl⟩
  intro aligns
  rw [AsciidocExporter.table_header, rust_join_eq_intercalate]

/-- C5: `print_relative_speed_comparison` produces no output at all when
comparison output is disabled by the output style, or when fewer than two
results exist. -/
theorem print_comparison_noop (opts : Options) (results : List BenchmarkResult)
    (h : opts.output_style = OutputStyleOption.Disabled ∨ results.length < 2) :
    print_relative_speed_comparison opts results = CompOutput.noOutput := by
  rcases h with h | h
  · simp [print_relative_speed_comparison, h]
  · by_cases hd : opts.output_style = OutputStyleOption.Disabled
    · simp [print_relative_speed_comparison, hd]
    · simp [print_relative_speed_comparison, hd, h]

/-- Witness for C5: disabled output style and a single result. -/
theorem print_comparison_noop_witness :
    (optsDisabled.output_style = OutputStyleOption.Disabled ∨
      ([exA1] : List BenchmarkResult).length < 2) ∧
    print_relative_speed_comparison optsDisabled [exA1] = CompOutput.noOutput :=
  ⟨Or.inl rfl, print_comparison_noop optsDisabled [exA1] (Or.inl rfl)⟩

/-- C6: when the executor's calibration fails, `run_benchmarks` returns that
error with an empty result list and an empty export trace: nothing was
measured and the export collaborator was never invoked. -/
theorem run_benchmarks_calibration_failure {Cmd E : Type} (env : Env Cmd E)
    (opts : Options) (cmds : List Cmd) (e : E)
    (h : env.calibrate opts.executor_kind = Except.error e) :
    run_benchmarks env opts cmds = (⟨[], []⟩, Except.error e) := by
  simp [run_benchmarks, h]

/-- Witness for C6: an environment whose calibration fails on two pending
commands. -/
theorem run_benchmarks_calibration_failure_witness :
    failCalibrationEnv.calibrate optsEnabled.executor_kind =
      Except.error "shell not found" ∧
    run_benchmarks failCalibrationEnv optsEnabled [(), ()] =
      (⟨[], []⟩, Except.error "shell not found") :=
  ⟨rfl, run_benchmarks_calibration_failure failCalibrationEnv optsEnabled
    [(), ()] "shell not found" rfl⟩

/-- C4: during `run_benchmarks` the export collaborator is invoked right
after every completed benchmark, with the partial flag set and with exactly
the first `i + 1` computed results (in command-declaration order) as
payload — so the trace keeps each prefix even if a later command fails —
and result `i` is the successful outcome of running command `i`. -/
theorem run_benchmarks_incremental_export {Cmd E : Type} (env : Env Cmd E)
    (opts : Options) (cmds : List Cmd) :
    (run_benchmarks env opts cmds).1.trace =
      (List.range (run_benchmarks env opts cmds).1.results.length).map
        (fun i => ⟨(run_benchmarks env opts cmds).1.results.take (i + 1),
          opts.sort_order_exports, true⟩) ∧
    ∀ i c, i < (run_benchmarks env opts cmds).1.results.length →
      cmds.get? i = some c →
      env.run i c =
        Except.ok ((run_benchmarks env opts cmds).1.results.getD i default) :=
  ⟨(run_benchmarks_spec env opts cmds).1, (run_benchmarks_spec env opts cmds).2⟩

/-- C8: `final_export` makes exactly one export call, carrying the full
accumulated result list with the partial flag cleared, while every export
call made during `run_benchmarks` has the partial flag set. -/
theorem final_export_final_mode {Cmd E : Type} (env : Env Cmd E)
    (opts : Options) (st : SchedulerState) (cmds : List Cmd) :
    (final_export env opts st).1 =
      [⟨st.results, opts.sort_order_exports, false⟩] ∧
    ∀ call ∈ (run_benchmarks env opts cmds).1.trace, call.is_partial = true := by
  refine ⟨rfl, ?_⟩
  intro call hcall
  rw [(run_benchmarks_spec env opts cmds).1] at hcall
  unfold partialTrace at hcall
  obtain ⟨i, hi, rfl⟩ := List.mem_map.mp hcall
  rfl

/-- C1: when the fastest (minimum) mean of a result set is exactly zero,
`compute_with_check` returns `none`, and (with at least two results and
output not disabled) `print_relative_speed_comparison` produces the
diagnostic note rather than a summary block or comparison table. -/
theorem zero_mean_comparison_diagnostic (opts : Options)
    (results : List BenchmarkResult) (so : SortOrder)
    (h0 : ∃ r ∈ results, r.mean = 0) (hnn : ∀ r ∈ results, 0 ≤ r.mean) :
    compute_with_check results so = none ∧
      (opts.output_style ≠ OutputStyleOption.Disabled → 2 ≤ results.length →
        print_relative_speed_comparison opts results =
          CompOutput.diagnosticNote) := by
  have hmain : ∀ so', compute_with_check results so' = none := by
    intro so'
    obtain ⟨r0, hr0, hr0m⟩ := h0
    cases results with
    | nil => simp at hr0
    | cons x xs =>
        obtain ⟨f, hf⟩ := fastest_of_cons_isSome x xs
        have hle := fastest_of_le hf r0 hr0
        have hge := hnn f (fastest_of_mem hf)
        have hzero : f.mean = 0 := le_antisymm (by rw [hr0m] at hle; exact hle) hge
        simp [compute_with_check, hf, hzero]
  refine ⟨hmain so, fun hstyle hlen => ?_⟩
  have h2 : ¬ results.length < 2 := by omega
  simp [print_relative_speed_comparison, hstyle, h2, hmain]

/-- Witness for C1: a two-result set whose fastest mean is zero, with output
enabled. -/
theorem zero_mean_comparison_diagnostic_witness :
    ((∃ r ∈ exampleZero, r.mean = 0) ∧ (∀ r ∈ exampleZero, 0 ≤ r.mean)) ∧
    compute_with_check exampleZero SortOrder.MeanTime = none ∧
    print_relative_speed_comparison optsEnabled exampleZero =
      CompOutput.diagnosticNote := by
  have h0 : ∃ r ∈ exampleZero, r.mean = 0 :=
    ⟨exZero, by simp [exampleZero], rfl⟩
  have hnn : ∀ r ∈ exampleZero, 0 ≤ r.mean := by
    intro r hr
    simp only [exampleZero, List.mem_cons, List.not_mem_nil, or_false] at hr
    rcases hr with rfl | rfl
    · norm_num [exZero, exA1]
    · norm_num [exA2]
  have h := zero_mean_comparison_diagnostic optsEnabled exampleZero
    SortOrder.MeanTime h0 hnn
  exact ⟨⟨h0, hnn⟩, h.1, h.2 (by simp [optsEnabled]) (by simp [exampleZero])⟩

/-- An element read with `getD` inside bounds is a member. -/
theorem getD_mem_of_lt {l : List BenchmarkResult} {j : Nat}
    (h : j < l.length) : l.getD j default ∈ l := by
  rw [List.getD_eq_getElem l default h]
  exact List.getElem_mem h

/-- C2: with at least two results and a strictly positive fastest mean,
`compute_with_check` annotates every entry with a relative speed of at least
one, exactly one entry is marked fastest, and that entry's relative speed is
exactly one. -/
theorem compute_with_check_annotations (results : List BenchmarkResult)
    (so : SortOrder) (f : BenchmarkResult) (_hlen : 2 ≤ results.length)
    (hf : fastest_of results = some f) (hpos : 0 < f.mean) :
    ∃ L, compute_with_check results so = some L ∧
      (∀ a ∈ L, 1 ≤ a.relative_speed) ∧
      L.countP (fun a => a.is_fastest) = 1 ∧
      (∀ a ∈ L, a.is_fastest = true → a.relative_speed = 1) := by
  have hne : f.mean ≠ 0 := ne_of_gt hpos
  have hcomp := compute_with_check_eq_some hf hne so
  have hperm := sortAnnotated_perm so
    (annotate f (first_min_idx f.mean results) 0 results)
  have hfIdx_lt : first_min_idx f.mean results < results.length :=
    first_min_idx_lt f.mean ⟨f, fastest_of_mem hf, le_refl _⟩
  refine ⟨_, hcomp, ?_, ?_, ?_⟩
  · intro a ha
    obtain ⟨j, hj, rfl⟩ := mem_annotate.mp (hperm.mem_iff.mp ha)
    have hle := fastest_of_le hf _ (getD_mem_of_lt hj)
    show 1 ≤ (results.getD j default).mean / f.mean
    exact (one_le_div hpos).mpr hle
  · rw [List.Perm.countP_eq _ hperm, annotate_countP,
      if_pos ⟨Nat.zero_le _, by simpa using hfIdx_lt⟩]
  · intro a ha hfa
    obtain ⟨j, hj, rfl⟩ := mem_annotate.mp (hperm.mem_iff.mp ha)
    have hj' : j = first_min_idx f.mean results := by
      simpa [mkAnnotated] using hfa
    subst hj'
    have hle1 : (results.getD (first_min_idx f.mean results) default).mean ≤
        f.mean := first_min_idx_mean f.mean hfIdx_lt
    have hle2 := fastest_of_le hf _ (getD_mem_of_lt hj)
    show (results.getD (first_min_idx f.mean results) default).mean / f.mean = 1
    rw [le_antisymm hle1 hle2, div_self hne]

/-- Witness for C2: the two results of the Asciidoc integration test, with
means one and eleven. -/
theorem compute_with_check_annotations_witness :
    (2 ≤ exampleA.length ∧ fastest_of exampleA = some exA1 ∧ 0 < exA1.mean) ∧
    (∃ L, compute_with_check exampleA SortOrder.Command = some L ∧
      (∀ a ∈ L, 1 ≤ a.relative_speed) ∧
      L.countP (fun a => a.is_fastest) = 1 ∧
      (∀ a ∈ L, a.is_fastest = true → a.relative_speed = 1)) := by
  have hlen : 2 ≤ exampleA.length := by simp [exampleA]
  have hf : fastest_of exampleA = some exA1 := by
    show fastest_of [exA1, exA2] = some exA1
    simp only [fastest_of]
    norm_num [exA1, exA2]
  have hpos : 0 < exA1.mean := by norm_num [exA1]
  exact ⟨⟨hlen, hf, hpos⟩,
    compute_with_check_annotations exampleA SortOrder.Command exA1 hlen hf hpos⟩

/-- C7: an annotated entry whose underlying result has no standard deviation
carries no propagated uncertainty, and the fastest entry itself never
carries one, whatever the other results' standard deviations. -/
theorem stddev_absent_propagation (results : List BenchmarkResult)
    (so : SortOrder) (f : BenchmarkResult) (L : List AnnotatedResult)
    (hf : fastest_of results = some f)
    (hL : compute_with_check results so = some L) :
    (∀ a ∈ L, a.result.stddev = none → a.relative_speed_stddev = none) ∧
    (∀ a ∈ L, a.is_fastest = true → a.relative_speed_stddev = none) := by
  by_cases hz : f.mean = 0
  · have hnone : compute_with_check results so = none := by
      simp [compute_with_check, hf, hz]
    rw [hnone] at hL
    exact absurd hL (by simp)
  · rw [compute_with_check_eq_some hf hz so] at hL
    cases hL
    have hperm := sortAnnotated_perm so
      (annotate f (first_min_idx f.mean results) 0 results)
    constructor
    · intro a ha hnone
      obtain ⟨j, hj, rfl⟩ := mem_annotate.mp (hperm.mem_iff.mp ha)
      have hsd : (results.getD j default).stddev = none := hnone
      show (if 0 + j = first_min_idx f.mean results then none
        else propagated_stddev f (results.getD j default)) = none
      rw [propagated_stddev_none_left hsd, ite_self]
    · intro a ha hfa
      obtain ⟨j, hj, rfl⟩ := mem_annotate.mp (hperm.mem_iff.mp ha)
      have hj' : j = first_min_idx f.mean results := by
        simpa [mkAnnotated] using hfa
      show (if 0 + j = first_min_idx f.mean results then none
        else propagated_stddev f (results.getD j default)) = none
      rw [if_pos (by simp [hj'])]

/-- Witness for C7: the example pair whose slower entry is a single-sample
result. -/
theorem stddev_absent_propagation_witness :
    ∃ L, (fastest_of exampleB = some exA1 ∧
      compute_with_check exampleB SortOrder.Command = some L) ∧
    (∀ a ∈ L, a.result.stddev = none → a.relative_speed_stddev = none) ∧
    (∀ a ∈ L, a.is_fastest = true → a.relative_speed_stddev = none) := by
  have hf : fastest_of exampleB = some exA1 := by
    show fastest_of [exA1, exB2] = some exA1
    simp only [fastest_of]
    norm_num [exA1, exA2, exB2]
  have hne : exA1.mean ≠ 0 := by norm_num [exA1]
  have hcomp := compute_with_check_eq_some hf hne SortOrder.Command
  exact ⟨_, ⟨hf, hcomp⟩,
    stddev_absent_propagation exampleB SortOrder.Command exA1 _ hf hcomp⟩

/-- C3: whenever both the entry's and the fastest's standard deviations are
present (and the entry is not the reference itself), the annotated
`relative_speed_stddev` is `relative_speed * sqrt((stddev/mean)^2 +
(stddev_fastest/mean_fastest)^2)`; on the example pair with means `{1, 11}`
and standard deviations `{2, 12}` the slower entry is annotated with
relative speed `11` and a propagated uncertainty strictly between `25.05`
and `25.07` (approximately `25.06`). -/
theorem relative_speed_stddev_rule :
    (∀ (results : List BenchmarkResult) (so : SortOrder)
      (L : List AnnotatedResult) (f : BenchmarkResult) (a : AnnotatedResult)
      (sr sf : ℚ),
      compute_with_check results so = some L → fastest_of results = some f →
      a ∈ L → a.is_fastest = false → a.result.stddev = some sr →
      f.stddev = some sf →
      a.relative_speed_stddev =
        some (((a.relative_speed : ℚ) : ℝ) *
          Real.sqrt (((sr : ℝ) / (a.result.mean : ℝ)) ^ 2 +
            ((sf : ℝ) / (f.mean : ℝ)) ^ 2))) ∧
    (∃ L, compute_with_check exampleA SortOrder.Command = some L ∧
      (L.getD 1 default).relative_speed = 11 ∧
      ∃ v : ℝ, (L.getD 1 default).relative_speed_stddev = some v ∧
        2505 / 100 < v ∧ v < 2507 / 100) := by
  constructor
  · intro results so L f a sr sf hL hf ha hfast hsr hsf
    by_cases hz : f.mean = 0
    · have hnone : compute_with_check results so = none := by
        simp [compute_with_check, hf, hz]
      rw [hnone] at hL
      exact absurd hL (by simp)
    · rw [compute_with_check_eq_some hf hz so] at hL
      cases hL
      have hperm := sortAnnotated_perm so
        (annotate f (first_min_idx f.mean results) 0 results)
      obtain ⟨j, hj, rfl⟩ := mem_annotate.mp (hperm.mem_iff.mp ha)
      have hne : ¬ (0 + j = first_min_idx f.mean results) := by
        simpa [mkAnnotated] using hfast
      have hsr' : (results.getD j default).stddev = some sr := hsr
      have hstep : (mkAnnotated f (first_min_idx f.mean results) (0 + j)
          (results.getD j default)).relative_speed_stddev =
          propagated_stddev f (results.getD j default) := by
        show (if 0 + j = first_min_idx f.mean results then none
          else propagated_stddev f (results.getD j default)) = _
        rw [if_neg hne]
      rw [hstep, propagated_stddev_some hsr' hsf]
      rfl
  · have hfA : fastest_of exampleA = some exA1 := by
      show fastest_of [exA1, exA2] = some exA1
      simp only [fastest_of]
      norm_num [exA1, exA2]
    have hne0 : exA1.mean ≠ 0 := by norm_num [exA1]
    have hcomp := compute_with_check_eq_some hfA hne0 SortOrder.Command
    have hidx : first_min_idx exA1.mean exampleA = 0 := by
      show first_min_idx exA1.mean [exA1, exA2] = 0
      simp [first_min_idx]
    rw [hidx] at hcomp
    refine ⟨_, hcomp, ?_, ?_⟩
    · show exA2.mean / exA1.mean = 11
      norm_num [exA1, exA2]
    · have hsd : (mkAnnotated exA1 0 1 exA2).relative_speed_stddev =
          propagated_stddev exA1 exA2 := by
        show (if 1 = 0 then none else propagated_stddev exA1 exA2) = _
        rw [if_neg (by omega)]
      have hprop := propagated_stddev_some
        (show exA2.stddev = some 12 from rfl) (show exA1.stddev = some 2 from rfl)
      refine ⟨((exA2.mean / exA1.mean : ℚ) : ℝ) *
        Real.sqrt ((((12 : ℚ) : ℝ) / (exA2.mean : ℝ)) ^ 2 +
          (((2 : ℚ) : ℝ) / (exA1.mean : ℝ)) ^ 2), hsd.trans hprop, ?_, ?_⟩
      all_goals
        have hval : ((exA2.mean / exA1.mean : ℚ) : ℝ) *
            Real.sqrt ((((12 : ℚ) : ℝ) / (exA2.mean : ℝ)) ^ 2 +
              (((2 : ℚ) : ℝ) / (exA1.mean : ℝ)) ^ 2) =
            11 * Real.sqrt (628 / 121) := by
          have h1 : exA1.mean = 1 := rfl
          have h2 : exA2.mean = 11 := rfl
          rw [h1, h2]
          push_cast
          norm_num
        rw [hval]
      · have hlo : (2505 / 1100 : ℝ) < Real.sqrt (628 / 121) :=
          (Real.lt_sqrt (by norm_num)).mpr (by norm_num)
        linarith [hlo]
      · have hhi : Real.sqrt (628 / 121) < 2507 / 1100 :=
          (Real.sqrt_lt' (by norm_num)).mpr (by norm_num)
        linarith [hhi]

end Hyperfine
